import Mathlib

/-!
Verification of the configuration-resolution and output-partitioning front
end of the protobuf C++ code generator
(`src/google/protobuf/compiler/cpp/generator.cc`, `CppGenerator::Generate`).

The C++ code is shallowly embedded: the option-parsing loop becomes a fold
over (key, value) tokens producing an `Options` record or an error string;
the artifact phase becomes a pure function producing the ordered list of
side-effect events (stream opens, emitter calls, metadata serialization),
with the fatal `ABSL_CHECK_LE` modelled as a distinct `aborted` outcome.
-/

namespace CppGen

/-- Optimize-mode enforcement, from `EnforceOptimizeMode` (cpp/options.h,
outside src/): the generator.cc loop assigns `kSpeed`, `kCodeSize`, and
`kLiteRuntime`; `kNoEnforcement` is the default when no option sets it. -/
inductive EnforceOptimizeMode where
  | kNoEnforcement
  | kSpeed
  | kCodeSize
  | kLiteRuntime
deriving DecidableEq, Repr

/-- Tail-call-table mode, from `Options::tctable_mode` (cpp/options.h,
outside src/): generator.cc assigns `kTCTableNever` and `kTCTableAlways`;
`kTCTableGuarded` is the default. -/
inductive TCTableMode where
  | kTCTableGuarded
  | kTCTableNever
  | kTCTableAlways
deriving DecidableEq, Repr

/-- The field-listener sub-record of `Options` (cpp/options.h, outside
src/). The C++ `forbidden_field_listener_events` is a hash set of strings;
it is modelled as a duplicate-free list whose membership is the set. -/
structure FieldListenerOptions where
  inject_field_listener_events : Bool := false
  forbidden_field_listener_events : List String := []
deriving DecidableEq, Repr

/-- The resolved configuration. its fields are the ones
`CppGenerator::Generate` reads or writes; the struct itself lives in
cpp/options.h (outside src/), so defaults follow the spec's Configuration
record (booleans off, strings empty, split count absent = 0). -/
structure Options where
  dllexport_decl : String := ""
  safe_boundary_check : Bool := false
  annotate_headers : Bool := false
  annotation_pragma_name : String := ""
  annotation_guard_name : String := ""
  enforce_mode : EnforceOptimizeMode := .kNoEnforcement
  lite_implicit_weak_fields : Bool := false
  num_cc_files : Int := 0
  proto_h : Bool := false
  annotate_accessor : Bool := false
  field_listener_options : FieldListenerOptions := {}
  unverified_lazy_message_sets : Bool := false
  force_eagerly_verified_lazy : Bool := false
  tctable_mode : TCTableMode := .kTCTableGuarded
  opensource_runtime : Bool := true
deriving DecidableEq, Repr

/-- `std::strtol(value.c_str(), nullptr, 10)` on the digit prefix:
skip C whitespace, optional sign, accumulate base-10 digits, stop at the
first non-digit; no digits means 0. -/
def strtol10 (s : String) : Int :=
  let cs := s.toList.dropWhile fun c =>
    c = ' ' ∨ c = '\t' ∨ c = '\n' ∨ c = '\x0b' ∨ c = '\x0c' ∨ c = '\r'
  let digitsVal : List Char → Int := fun l =>
    (l.takeWhile (·.isDigit)).foldl (fun acc c => 10 * acc + (c.toNat - '0'.toNat)) 0
  match cs with
  | '-' :: rest => - digitsVal rest
  | '+' :: rest => digitsVal rest
  | rest => digitsVal rest

/-- Hash-set `emplace`: add the string if it is not already a member.
(The C++ set is unordered; only membership matters downstream.) -/
def setInsert (acc : List String) (s : String) : List String :=
  if s ∈ acc then acc else acc ++ [s]

/-- The `forbidden_field_listener_events` do-while loop of generator.cc
lines 176-186, rewritten from the position `pos` into the suffix
`rest = value[pos..]`: `next_pos - pos` is the length of
`rest.takeWhile (· ≠ '+')`, the segment is added when non-empty, and the
loop continues while `pos = next_pos + 1 < value.size`. -/
def forbiddenLoop (acc : List String) (rest : List Char) : List String :=
  let seg := rest.takeWhile (· ≠ '+')
  let acc' := if seg = [] then acc else setInsert acc (String.mk seg)
  if h : seg.length + 1 < rest.length then
    forbiddenLoop acc' (rest.drop (seg.length + 1))
  else acc'
termination_by rest.length
decreasing_by
  simp only [List.length_drop]
  omega

/-- One iteration of the option loop of `CppGenerator::Generate`
(generator.cc lines 134-205): the if/else-if chain on `key`, returning
the updated options or the error message the C++ writes to `*error`. -/
def applyOption (fileName : String) (o : Options) (key value : String) :
    Except String Options :=
  if key = "dllexport_decl" then
    .ok { o with dllexport_decl := value }
  else if key = "safe_boundary_check" then
    .ok { o with safe_boundary_check := true }
  else if key = "annotate_headers" then
    .ok { o with annotate_headers := true }
  else if key = "annotation_pragma_name" then
    .ok { o with annotation_pragma_name := value }
  else if key = "annotation_guard_name" then
    .ok { o with annotation_guard_name := value }
  else if key = "speed" then
    .ok { o with enforce_mode := .kSpeed }
  else if key = "code_size" then
    .ok { o with enforce_mode := .kCodeSize }
  else if key = "lite" then
    .ok { o with enforce_mode := .kLiteRuntime }
  else if key = "lite_implicit_weak_fields" then
    if value ≠ "" then
      .ok { o with enforce_mode := .kLiteRuntime,
                   lite_implicit_weak_fields := true,
                   num_cc_files := strtol10 value }
    else
      .ok { o with enforce_mode := .kLiteRuntime,
                   lite_implicit_weak_fields := true }
  else if key = "proto_h" then
    .ok { o with proto_h := true }
  else if key = "proto_static_reflection_h" then
    .ok o
  else if key = "annotate_accessor" then
    .ok { o with annotate_accessor := true }
  else if key = "protos_for_field_listener_events" then
    if fileName ∈ value.splitOn ":" then
      .ok { o with field_listener_options :=
              { o.field_listener_options with
                  inject_field_listener_events := true } }
    else .ok o
  else if key = "inject_field_listener_events" then
    .ok { o with field_listener_options :=
            { o.field_listener_options with
                inject_field_listener_events := true } }
  else if key = "forbidden_field_listener_events" then
    .ok { o with field_listener_options :=
            { o.field_listener_options with
                forbidden_field_listener_events :=
                  forbiddenLoop
                    o.field_listener_options.forbidden_field_listener_events
                    value.toList } }
  else if key = "unverified_lazy_message_sets" then
    .ok { o with unverified_lazy_message_sets := true }
  else if key = "force_eagerly_verified_lazy" then
    .ok { o with force_eagerly_verified_lazy := true }
  else if key = "experimental_tail_call_table_mode" then
    if value = "never" then
      .ok { o with tctable_mode := .kTCTableNever }
    else if value = "always" then
      .ok { o with tctable_mode := .kTCTableAlways }
    else
      .error ("Unknown value for experimental_tail_call_table_mode: " ++ value)
  else
    .error ("Unknown generator option: " ++ key)

/-- The option loop of `CppGenerator::Generate`: fold `applyOption` over
the token list in order, stopping at the first error. -/
def resolveOptions (fileName : String) (o : Options) :
    List (String × String) → Except String Options
  | [] => .ok o
  | (k, v) :: rest =>
    match applyOption fileName o k v with
    | .error e => .error e
    | .ok o' => resolveOptions fileName o' rest

/-- The fixed option table: the keys that the if/else-if chain of
generator.cc recognizes (everything that does not fall through to the
`Unknown generator option` branch). -/
def recognizedKey (key : String) : Bool :=
  key = "dllexport_decl" ∨ key = "safe_boundary_check" ∨
  key = "annotate_headers" ∨ key = "annotation_pragma_name" ∨
  key = "annotation_guard_name" ∨ key = "speed" ∨ key = "code_size" ∨
  key = "lite" ∨ key = "lite_implicit_weak_fields" ∨ key = "proto_h" ∨
  key = "proto_static_reflection_h" ∨ key = "annotate_accessor" ∨
  key = "protos_for_field_listener_events" ∨
  key = "inject_field_listener_events" ∨
  key = "forbidden_field_listener_events" ∨
  key = "unverified_lazy_message_sets" ∨
  key = "force_eagerly_verified_lazy" ∨
  key = "experimental_tail_call_table_mode"

/-- Splitting a character list on an arbitrary delimiter, keeping empty
segments (the generic counterpart of `plusSegments`). -/
def splitChar (delim : Char) : List Char → List (List Char)
  | [] => [[]]
  | c :: cs =>
    if c = delim then [] :: splitChar delim cs
    else
      match splitChar delim cs with
      | s :: rest => (c :: s) :: rest
      | [] => [[c]]

/-- Modelled from the spec: `ParseGeneratorParameter`
(compiler/code_generator.cc, outside src/). Spec 4.1: the option string is
comma-delimited; each segment is a bare key or `key=value` split at the
first `=` (the value may contain further `=`); empty input yields no
tokens; a trailing delimiter yields an empty trailing key. -/
def parseGeneratorParameter (text : String) : List (String × String) :=
  if text = "" then []
  else (splitChar ',' text.data).map fun part =>
    if (part.takeWhile (· ≠ '=')).length = part.length then
      (String.mk part, "")
    else
      (String.mk (part.takeWhile (· ≠ '=')),
       String.mk (part.drop ((part.takeWhile (· ≠ '=')).length + 1)))

/-- `NumberedCcFileName` (generator.cc lines 56-58):
`<basename>.out/<number>.cc`. -/
def numberedCcFileName (basename : String) (number : Nat) : String :=
  basename ++ ".out/" ++ toString number ++ ".cc"

/-- The emitter operations `Generate` can invoke on the `FileGenerator`
(whose bodies live in cpp/file.cc, outside the scope of this layer; only
which operation is called, in which order, matters here). Header
operations carry the `info_path` argument ("" when annotation is off). -/
inductive EmitOp where
  | protoHeader (infoPath : String)
  | pbHeader (infoPath : String)
  | globalSource
  | source
  | sourceForMessage (i : Nat)
  | sourceForExtension (i : Nat)
deriving DecidableEq, Repr

/-- One observable side effect of `Generate` on its collaborators:
opening an output stream by name, invoking an emitter operation, or
serializing the collected annotations into a metadata stream. -/
inductive Event where
  | openFile (name : String)
  | emit (op : EmitOp)
  | serializeMeta (name : String)
deriving DecidableEq, Repr

/-- Header generation (generator.cc lines 238-287): the optional
`.proto.h` block when `proto_h` is set, then the `.pb.h` block; each block
opens the header, emits it (passing the `.meta` info path exactly when
`annotate_headers` is set), and, when `annotate_headers` is set, opens the
sibling `.meta` stream after emission returns and serializes the collected
annotations into it. -/
def headerEvents (o : Options) (basename : String) : List Event :=
  (if o.proto_h then
    [Event.openFile (basename ++ ".proto.h"),
     Event.emit (.protoHeader
       (if o.annotate_headers then basename ++ ".proto.h.meta" else ""))] ++
    (if o.annotate_headers then
      [Event.openFile (basename ++ ".proto.h.meta"),
       Event.serializeMeta (basename ++ ".proto.h.meta")]
     else [])
   else []) ++
  [Event.openFile (basename ++ ".pb.h"),
   Event.emit (.pbHeader
     (if o.annotate_headers then basename ++ ".pb.h.meta" else ""))] ++
  (if o.annotate_headers then
    [Event.openFile (basename ++ ".pb.h.meta"),
     Event.serializeMeta (basename ++ ".pb.h.meta")]
   else [])

/-- The per-message loop (generator.cc lines 317-324), recursing on the
number of messages still to do: `ctr` is `cc_file_number`, `i` the message
index. -/
def msgFileEvents (basename : String) (ctr i : Nat) : Nat → List Event
  | 0 => []
  | n + 1 =>
    Event.openFile (numberedCcFileName basename ctr) ::
    Event.emit (.sourceForMessage i) ::
    msgFileEvents basename (ctr + 1) (i + 1) n

/-- The per-extension loop (generator.cc lines 326-333). -/
def extFileEvents (basename : String) (ctr i : Nat) : Nat → List Event
  | 0 => []
  | n + 1 =>
    Event.openFile (numberedCcFileName basename ctr) ::
    Event.emit (.sourceForExtension i) ::
    extFileEvents basename (ctr + 1) (i + 1) n

/-- The placeholder loop (generator.cc lines 337-340): open (and
immediately release) empty numbered files until the counter reaches the
expected total; no emitter call. -/
def placeholderEvents (basename : String) (ctr : Nat) : Nat → List Event
  | 0 => []
  | n + 1 =>
    Event.openFile (numberedCcFileName basename ctr) ::
    placeholderEvents basename (ctr + 1) n

/-- Outcome of the source-file phase: the events produced, and whether the
fatal `ABSL_CHECK_LE` fired (aborting the process after the events already
produced). -/
structure SourceOut where
  events : List Event
  aborted : Bool
deriving DecidableEq, Repr

/-- Source generation (generator.cc lines 289-348). `split` is
`UsingImplicitWeakFields(file, file_options)` (helpers.cc, outside this
layer; the spec treats it as a caller-supplied boolean). In split mode:
open and emit the global `.pb.cc`; let `num_cc_files` be messages plus
extensions unless an explicit positive `Options.num_cc_files` overrides it,
which first runs `ABSL_CHECK_LE(natural, requested)` — a fatal abort when
violated; then the message loop, the extension loop, and placeholders up
to the target, sharing one counter starting at 0. Non-split: open `.pb.cc`
and emit the whole source. -/
def sourceEvents (o : Options) (basename : String) (split : Bool)
    (numMessages numExtensions : Nat) : SourceOut :=
  if split then
    if o.num_cc_files > 0 then
      if (numMessages : Int) + (numExtensions : Int) ≤ o.num_cc_files then
        { events := [.openFile (basename ++ ".pb.cc"), .emit .globalSource] ++
            msgFileEvents basename 0 0 numMessages ++
            extFileEvents basename numMessages 0 numExtensions ++
            placeholderEvents basename (numMessages + numExtensions)
              (o.num_cc_files - ((numMessages : Int) + (numExtensions : Int))).toNat,
          aborted := false }
      else
        { events := [.openFile (basename ++ ".pb.cc"), .emit .globalSource],
          aborted := true }
    else
      { events := [.openFile (basename ++ ".pb.cc"), .emit .globalSource] ++
          msgFileEvents basename 0 0 numMessages ++
          extFileEvents basename numMessages 0 numExtensions,
        aborted := false }
  else
    { events := [.openFile (basename ++ ".pb.cc"), .emit .source],
      aborted := false }

/-- Result of `CppGenerator::Generate`: `success` (returns true) or
`failure` (returns false with `*error` set) carry the events produced
before returning; `fatal` is the `ABSL_CHECK` process abort, carrying the
events produced before the check fired. -/
inductive GenResult where
  | success (events : List Event)
  | failure (msg : String) (events : List Event)
  | fatal (events : List Event)
deriving DecidableEq, Repr

/-- The events a `GenResult` carries, whatever the outcome. -/
def GenResult.eventsOf : GenResult → List Event
  | .success evs => evs
  | .failure _ evs => evs
  | .fatal evs => evs

/-- `Generate` after option resolution succeeded (generator.cc lines
207-350): the `safe_boundary_check` ∧ `opensource_runtime` cross-check
(the only failure branch after the loop), then headers, then sources.
The bootstrap shortcut (`MaybeBootstrap`, outside this layer) is modelled
as not taken. -/
def generateResolved (o : Options) (basename : String) (split : Bool)
    (numMessages numExtensions : Nat) : GenResult :=
  if o.safe_boundary_check && o.opensource_runtime then
    .failure "The safe_boundary_check option is not supported outside of Google." []
  else
    if (sourceEvents o basename split numMessages numExtensions).aborted then
      .fatal (headerEvents o basename ++
        (sourceEvents o basename split numMessages numExtensions).events)
    else
      .success (headerEvents o basename ++
        (sourceEvents o basename split numMessages numExtensions).events)

/-- `CppGenerator::Generate` end to end: parse-loop the tokens (a
resolution error returns failure before any artifact is opened), then the
cross-check and the artifact phase. `opensource` is the generator's
`opensource_runtime_` field; `fileName` is `file->name()`; `basename` is
`StripProto(file->name())`. -/
def generate (opensource : Bool) (fileName basename : String) (split : Bool)
    (numMessages numExtensions : Nat) (tokens : List (String × String)) :
    GenResult :=
  match resolveOptions fileName { opensource_runtime := opensource } tokens with
  | .error e => .failure e []
  | .ok o => generateResolved o basename split numMessages numExtensions

/-- The optimize mode an option key sets, if any: `speed`, `code_size`,
and `lite` set the corresponding mode, and `lite_implicit_weak_fields`
also forces lite-runtime mode (generator.cc lines 148-156). -/
def modeOf (key : String) : Option EnforceOptimizeMode :=
  if key = "speed" then some .kSpeed
  else if key = "code_size" then some .kCodeSize
  else if key = "lite" then some .kLiteRuntime
  else if key = "lite_implicit_weak_fields" then some .kLiteRuntime
  else none

/-- Splitting a character list on `'+'`: the list of (possibly empty)
segments between delimiters. This is the specification-side counterpart of
the `forbidden_field_listener_events` scanning loop. -/
def plusSegments : List Char → List (List Char)
  | [] => [[]]
  | c :: cs =>
    if c = '+' then [] :: plusSegments cs
    else
      match plusSegments cs with
      | s :: rest => (c :: s) :: rest
      | [] => [[c]]

/-! ### Helper lemmas about the option loop -/

theorem strAppend_data (s t : String) : (s ++ t).data = s.data ++ t.data := rfl

theorem strAppend_left_cancel {b x y : String} (h : x ≠ y) : b ++ x ≠ b ++ y := by
  intro heq
  apply h
  have hd := congrArg String.data heq
  rw [strAppend_data, strAppend_data] at hd
  have h2 := List.append_cancel_left hd
  cases x; cases y
  exact congrArg String.mk h2

theorem resolveOptions_append (f : String) (o : Options)
    (l₁ l₂ : List (String × String)) :
    resolveOptions f o (l₁ ++ l₂) =
      match resolveOptions f o l₁ with
      | .error e => .error e
      | .ok o' => resolveOptions f o' l₂ := by
  induction l₁ generalizing o with
  | nil => rfl
  | cons p rest ih =>
    obtain ⟨k, v⟩ := p
    simp only [List.cons_append, resolveOptions]
    cases applyOption f o k v with
    | error e => rfl
    | ok o' => exact ih o'

theorem applyOption_unknown (f : String) (o : Options) (k v : String)
    (h : recognizedKey k = false) :
    applyOption f o k v = .error ("Unknown generator option: " ++ k) := by
  simp only [recognizedKey, decide_eq_false_iff_not, not_or] at h
  obtain ⟨h1, h2, h3, h4, h5, h6, h7, h8, h9, h10, h11, h12, h13, h14, h15,
    h16, h17, h18⟩ := h
  simp only [applyOption, if_neg h1, if_neg h2, if_neg h3, if_neg h4,
    if_neg h5, if_neg h6, if_neg h7, if_neg h8, if_neg h9, if_neg h10,
    if_neg h11, if_neg h12, if_neg h13, if_neg h14, if_neg h15, if_neg h16,
    if_neg h17, if_neg h18]

theorem applyOption_recognized (f : String) (o : Options) (k v : String)
    (o' : Options) (h : applyOption f o k v = .ok o') :
    recognizedKey k = true := by
  by_contra hk
  rw [applyOption_unknown f o k v (Bool.eq_false_iff.mpr hk)] at h
  cases h

theorem resolveOptions_recognized (f : String) (o : Options)
    (l : List (String × String)) (o' : Options)
    (h : resolveOptions f o l = .ok o') :
    ∀ p ∈ l, recognizedKey p.1 = true := by
  induction l generalizing o with
  | nil => intro p hp; cases hp
  | cons q rest ih =>
    obtain ⟨k, v⟩ := q
    intro p hp
    simp only [resolveOptions] at h
    cases happ : applyOption f o k v with
    | error e => rw [happ] at h; cases h
    | ok o₁ =>
      rw [happ] at h
      rcases List.mem_cons.mp hp with hp | hp
      · subst hp; exact applyOption_recognized f o k v o₁ happ
      · exact ih o₁ h p hp

theorem applyOption_fields (f : String) (o : Options) (k v : String)
    (o' : Options) (h : applyOption f o k v = .ok o') :
    o'.opensource_runtime = o.opensource_runtime ∧
    o'.enforce_mode =
      (match modeOf k with | some m => m | none => o.enforce_mode) := by
  unfold applyOption at h
  by_cases h1 : k = "dllexport_decl"
  · subst h1; rw [if_pos rfl] at h; cases h; exact ⟨rfl, rfl⟩
  rw [if_neg h1] at h
  by_cases h2 : k = "safe_boundary_check"
  · subst h2; rw [if_pos rfl] at h; cases h; exact ⟨rfl, rfl⟩
  rw [if_neg h2] at h
  by_cases h3 : k = "annotate_headers"
  · subst h3; rw [if_pos rfl] at h; cases h; exact ⟨rfl, rfl⟩
  rw [if_neg h3] at h
  by_cases h4 : k = "annotation_pragma_name"
  · subst h4; rw [if_pos rfl] at h; cases h; exact ⟨rfl, rfl⟩
  rw [if_neg h4] at h
  by_cases h5 : k = "annotation_guard_name"
  · subst h5; rw [if_pos rfl] at h; cases h; exact ⟨rfl, rfl⟩
  rw [if_neg h5] at h
  by_cases h6 : k = "speed"
  · subst h6; rw [if_pos rfl] at h; cases h; exact ⟨rfl, rfl⟩
  rw [if_neg h6] at h
  by_cases h7 : k = "code_size"
  · subst h7; rw [if_pos rfl] at h; cases h; exact ⟨rfl, rfl⟩
  rw [if_neg h7] at h
  by_cases h8 : k = "lite"
  · subst h8; rw [if_pos rfl] at h; cases h; exact ⟨rfl, rfl⟩
  rw [if_neg h8] at h
  by_cases h9 : k = "lite_implicit_weak_fields"
  · subst h9; rw [if_pos rfl] at h
    split at h <;> (cases h; exact ⟨rfl, rfl⟩)
  rw [if_neg h9] at h
  by_cases h10 : k = "proto_h"
  · subst h10; rw [if_pos rfl] at h; cases h; exact ⟨rfl, rfl⟩
  rw [if_neg h10] at h
  by_cases h11 : k = "proto_static_reflection_h"
  · subst h11; rw [if_pos rfl] at h; cases h; exact ⟨rfl, rfl⟩
  rw [if_neg h11] at h
  by_cases h12 : k = "annotate_accessor"
  · subst h12; rw [if_pos rfl] at h; cases h; exact ⟨rfl, rfl⟩
  rw [if_neg h12] at h
  by_cases h13 : k = "protos_for_field_listener_events"
  · subst h13; rw [if_pos rfl] at h
    split at h <;> (cases h; exact ⟨rfl, rfl⟩)
  rw [if_neg h13] at h
  by_cases h14 : k = "inject_field_listener_events"
  · subst h14; rw [if_pos rfl] at h; cases h; exact ⟨rfl, rfl⟩
  rw [if_neg h14] at h
  by_cases h15 : k = "forbidden_field_listener_events"
  · subst h15; rw [if_pos rfl] at h; cases h; exact ⟨rfl, rfl⟩
  rw [if_neg h15] at h
  by_cases h16 : k = "unverified_lazy_message_sets"
  · subst h16; rw [if_pos rfl] at h; cases h; exact ⟨rfl, rfl⟩
  rw [if_neg h16] at h
  by_cases h17 : k = "force_eagerly_verified_lazy"
  · subst h17; rw [if_pos rfl] at h; cases h; exact ⟨rfl, rfl⟩
  rw [if_neg h17] at h
  by_cases h18 : k = "experimental_tail_call_table_mode"
  · subst h18; rw [if_pos rfl] at h
    split at h
    · cases h; exact ⟨rfl, rfl⟩
    split at h
    · cases h; exact ⟨rfl, rfl⟩
    cases h
  rw [if_neg h18] at h
  cases h

theorem resolveOptions_opensource (f : String) (o : Options)
    (l : List (String × String)) (o' : Options)
    (h : resolveOptions f o l = .ok o') :
    o'.opensource_runtime = o.opensource_runtime := by
  induction l generalizing o with
  | nil => cases h; rfl
  | cons q rest ih =>
    obtain ⟨k, v⟩ := q
    simp only [resolveOptions] at h
    cases happ : applyOption f o k v with
    | error e => rw [happ] at h; cases h
    | ok o₁ =>
      rw [happ] at h
      rw [ih o₁ h, (applyOption_fields f o k v o₁ happ).1]

theorem resolveOptions_mode_none (f : String) (o : Options)
    (l : List (String × String)) (o' : Options)
    (h : resolveOptions f o l = .ok o') (hl : ∀ p ∈ l, modeOf p.1 = none) :
    o'.enforce_mode = o.enforce_mode := by
  induction l generalizing o with
  | nil => cases h; rfl
  | cons q rest ih =>
    obtain ⟨k, v⟩ := q
    simp only [resolveOptions] at h
    cases happ : applyOption f o k v with
    | error e => rw [happ] at h; cases h
    | ok o₁ =>
      rw [happ] at h
      have hk : modeOf k = none := hl (k, v) (List.mem_cons_self _ _)
      have h2 := (applyOption_fields f o k v o₁ happ).2
      rw [hk] at h2
      rw [ih o₁ h fun p hp => hl p (List.mem_cons_of_mem _ hp), h2]

/-! ### Closed forms of the source-file loops -/

theorem msgFileEvents_eq (b : String) (n : Nat) : ∀ ctr i : Nat,
    msgFileEvents b ctr i n = (List.range n).flatMap fun j =>
      [Event.openFile (numberedCcFileName b (ctr + j)),
       Event.emit (.sourceForMessage (i + j))] := by
  induction n with
  | zero => intro ctr i; rfl
  | succ n ih =>
    intro ctr i
    rw [msgFileEvents, ih (ctr + 1) (i + 1), List.range_succ_eq_map,
        List.flatMap_cons, List.flatMap_map]
    have hf : (fun a => [Event.openFile (numberedCcFileName b (ctr + a.succ)),
          Event.emit (EmitOp.sourceForMessage (i + a.succ))]) =
        fun a => [Event.openFile (numberedCcFileName b (ctr + 1 + a)),
          Event.emit (EmitOp.sourceForMessage (i + 1 + a))] := by
      funext a
      have e1 : ctr + a.succ = ctr + 1 + a := by omega
      have e2 : i + a.succ = i + 1 + a := by omega
      rw [e1, e2]
    rw [hf]
    simp only [Nat.add_zero, List.cons_append, List.nil_append]

theorem extFileEvents_eq (b : String) (n : Nat) : ∀ ctr i : Nat,
    extFileEvents b ctr i n = (List.range n).flatMap fun j =>
      [Event.openFile (numberedCcFileName b (ctr + j)),
       Event.emit (.sourceForExtension (i + j))] := by
  induction n with
  | zero => intro ctr i; rfl
  | succ n ih =>
    intro ctr i
    rw [extFileEvents, ih (ctr + 1) (i + 1), List.range_succ_eq_map,
        List.flatMap_cons, List.flatMap_map]
    have hf : (fun a => [Event.openFile (numberedCcFileName b (ctr + a.succ)),
          Event.emit (EmitOp.sourceForExtension (i + a.succ))]) =
        fun a => [Event.openFile (numberedCcFileName b (ctr + 1 + a)),
          Event.emit (EmitOp.sourceForExtension (i + 1 + a))] := by
      funext a
      have e1 : ctr + a.succ = ctr + 1 + a := by omega
      have e2 : i + a.succ = i + 1 + a := by omega
      rw [e1, e2]
    rw [hf]
    simp only [Nat.add_zero, List.cons_append, List.nil_append]

theorem placeholderEvents_eq (b : String) (n : Nat) : ∀ ctr : Nat,
    placeholderEvents b ctr n = (List.range n).map fun j =>
      Event.openFile (numberedCcFileName b (ctr + j)) := by
  induction n with
  | zero => intro ctr; rfl
  | succ n ih =>
    intro ctr
    rw [placeholderEvents, ih (ctr + 1), List.range_succ_eq_map,
        List.map_cons, List.map_map]
    have hf : ((fun j => Event.openFile (numberedCcFileName b (ctr + j))) ∘
          Nat.succ) =
        fun a => Event.openFile (numberedCcFileName b (ctr + 1 + a)) := by
      funext a
      have e1 : ctr + a.succ = ctr + 1 + a := by omega
      simp only [Function.comp_apply, Nat.succ_eq_add_one]
      rw [← e1]
    rw [hf]
    simp only [Nat.add_zero]

/-! ### Artifact-name disjointness and event-shape helpers -/

theorem strAppend_assoc (s t u : String) : s ++ t ++ u = s ++ (t ++ u) := by
  cases s; cases t; cases u
  exact congrArg String.mk (List.append_assoc _ _ _)

theorem numbered_ne (b x : String) (i : Nat)
    (h2 : ∀ r, x.data ≠ '.' :: 'o' :: r) :
    b ++ x ≠ numberedCcFileName b i := by
  have hn : numberedCcFileName b i = b ++ (".out/" ++ (toString i ++ ".cc")) := by
    unfold numberedCcFileName
    rw [strAppend_assoc, strAppend_assoc]
  rw [hn]
  apply strAppend_left_cancel
  intro heq
  have hd := congrArg String.data heq
  rw [strAppend_data] at hd
  have hR : ".out/".data = '.' :: 'o' :: "ut/".data := rfl
  rw [hR] at hd
  simp only [List.cons_append] at hd
  exact h2 _ hd

theorem pbhMeta_head : ∀ r, (".pb.h.meta" : String).data ≠ '.' :: 'o' :: r := by
  intro r h
  rw [show (".pb.h.meta" : String).data = '.' :: 'p' :: "b.h.meta".data from rfl]
    at h
  injection h with h1 h2
  injection h2 with h3 h4
  exact absurd h3 (by decide)

theorem protohMeta_head : ∀ r, (".proto.h.meta" : String).data ≠ '.' :: 'o' :: r := by
  intro r h
  rw [show (".proto.h.meta" : String).data = '.' :: 'p' :: "roto.h.meta".data
        from rfl] at h
  injection h with h1 h2
  injection h2 with h3 h4
  exact absurd h3 (by decide)

theorem serializeMeta_not_mem_msg (b nm : String) (ctr i n : Nat) :
    Event.serializeMeta nm ∉ msgFileEvents b ctr i n := by
  rw [msgFileEvents_eq]
  simp

theorem serializeMeta_not_mem_ext (b nm : String) (ctr i n : Nat) :
    Event.serializeMeta nm ∉ extFileEvents b ctr i n := by
  rw [extFileEvents_eq]
  simp

theorem serializeMeta_not_mem_placeholder (b nm : String) (ctr n : Nat) :
    Event.serializeMeta nm ∉ placeholderEvents b ctr n := by
  rw [placeholderEvents_eq]
  simp

theorem serializeMeta_not_mem_source (o : Options) (b nm : String)
    (split : Bool) (M E : Nat) :
    Event.serializeMeta nm ∉ (sourceEvents o b split M E).events := by
  unfold sourceEvents
  split
  · split
    · split
      · simp only [List.append_assoc, List.mem_append, List.mem_cons]
        rintro (h | h | h)
        · rcases h with h | h | h
          · cases h
          · cases h
          · cases h
        · exact serializeMeta_not_mem_msg b nm 0 0 M h
        · rcases h with h | h
          · exact serializeMeta_not_mem_ext b nm M 0 E h
          · exact serializeMeta_not_mem_placeholder b nm (M + E) _ h
      · simp
    · simp only [List.append_assoc, List.mem_append, List.mem_cons]
      rintro (h | h | h)
      · rcases h with h | h | h
        · cases h
        · cases h
        · cases h
      · exact serializeMeta_not_mem_msg b nm 0 0 M h
      · exact serializeMeta_not_mem_ext b nm M 0 E h
  · simp

theorem generateResolved_events (o : Options) (b : String) (split : Bool)
    (M E : Nat) (hsb : (o.safe_boundary_check && o.opensource_runtime) = false) :
    (generateResolved o b split M E).eventsOf =
      headerEvents o b ++ (sourceEvents o b split M E).events := by
  unfold generateResolved
  rw [hsb]
  simp only [Bool.false_eq_true, if_false]
  split <;> rfl

theorem generateResolved_failure (o : Options) (b : String) (split : Bool)
    (M E : Nat) (msg : String) (evs : List Event)
    (h : generateResolved o b split M E = .failure msg evs) :
    o.safe_boundary_check = true ∧ o.opensource_runtime = true ∧
      msg = "The safe_boundary_check option is not supported outside of Google." ∧
      evs = [] := by
  unfold generateResolved at h
  split at h
  · rename_i hc
    cases h
    exact ⟨(Bool.and_eq_true _ _ ▸ hc).1, (Bool.and_eq_true _ _ ▸ hc).2,
      rfl, rfl⟩
  · split at h <;> cases h

/-! ### Splitting on the plus delimiter -/

theorem plusSegments_ne_nil (l : List Char) : plusSegments l ≠ [] := by
  cases l with
  | nil => simp [plusSegments]
  | cons c cs =>
    unfold plusSegments
    split
    · simp
    · split <;> simp

theorem plusSegments_no_plus (l : List Char) (h : '+' ∉ l) :
    plusSegments l = [l] := by
  induction l with
  | nil => rfl
  | cons c cs ih =>
    have hc : ¬(c = '+') := fun hh => h (hh ▸ List.mem_cons_self _ _)
    have hcs : '+' ∉ cs := fun hh => h (List.mem_cons_of_mem _ hh)
    unfold plusSegments
    rw [if_neg hc, ih hcs]

theorem plusSegments_append (seg rest : List Char) (h : '+' ∉ seg) :
    plusSegments (seg ++ '+' :: rest) = seg :: plusSegments rest := by
  induction seg with
  | nil =>
    simp only [List.nil_append]
    have step : plusSegments ('+' :: rest) =
        if '+' = '+' then [] :: plusSegments rest
        else match plusSegments rest with
          | s :: r => ('+' :: s) :: r
          | [] => [['+']] := rfl
    rw [step, if_pos rfl]
  | cons c cs ih =>
    have hc : ¬(c = '+') := fun hh => h (hh ▸ List.mem_cons_self _ _)
    have hcs : '+' ∉ cs := fun hh => h (List.mem_cons_of_mem _ hh)
    simp only [List.cons_append]
    have step : plusSegments (c :: (cs ++ '+' :: rest)) =
        if c = '+' then [] :: plusSegments (cs ++ '+' :: rest)
        else match plusSegments (cs ++ '+' :: rest) with
          | s :: r => (c :: s) :: r
          | [] => [[c]] := rfl
    rw [step, if_neg hc, ih hcs]

theorem dropWhile_head_false {α : Type} (p : α → Bool) (l : List α)
    (c : α) (t : List α) (h : l.dropWhile p = c :: t) : p c = false := by
  induction l with
  | nil => cases h
  | cons a l ih =>
    rw [List.dropWhile_cons] at h
    split at h
    · exact ih h
    · cases h
      rename_i hp
      simpa using hp

theorem forbiddenLoop_spec (n : Nat) : ∀ (rest : List Char), rest.length ≤ n →
    ∀ acc, forbiddenLoop acc rest =
      ((plusSegments rest).filter (· ≠ [])).foldl
        (fun a s => setInsert a (String.mk s)) acc := by
  induction n with
  | zero =>
    intro rest hlen acc
    have hr : rest = [] := List.length_eq_zero.mp (Nat.le_zero.mp hlen)
    subst hr
    rw [forbiddenLoop]
    simp [plusSegments]
  | succ n ih =>
    intro rest hlen acc
    rw [forbiddenLoop]
    have hsplit := List.takeWhile_append_dropWhile (fun x => decide (x ≠ '+')) rest
    cases htl : List.dropWhile (fun x => decide (x ≠ '+')) rest with
    | nil =>
      rw [htl, List.append_nil] at hsplit
      have hnoplus : '+' ∉ rest := by
        intro hmem
        rw [← hsplit] at hmem
        have := List.mem_takeWhile_imp hmem
        simp at this
      rw [hsplit, dif_neg (by omega), plusSegments_no_plus rest hnoplus]
      by_cases hre : rest = []
      · subst hre; simp
      · simp [hre]
    | cons c t =>
      have hc : c = '+' := by
        have := dropWhile_head_false _ _ _ _ htl
        simpa using this
      subst hc
      rw [htl] at hsplit
      set seg := List.takeWhile (fun x => decide (x ≠ '+')) rest with hsegdef
      have hnoplus : '+' ∉ seg := by
        intro hmem
        rw [hsegdef] at hmem
        have := List.mem_takeWhile_imp hmem
        simp at this
      have hlen2 : rest.length = seg.length + 1 + t.length := by
        rw [← hsplit]
        simp [List.length_append]
        omega
      have hdrop : rest.drop (seg.length + 1) = t := by
        rw [← hsplit,
          show seg ++ '+' :: t = (seg ++ ['+']) ++ t by simp,
          show seg.length + 1 = (seg ++ ['+']).length by simp]
        exact List.drop_left _ _
      have hseg : plusSegments rest = seg :: plusSegments t := by
        rw [← hsplit]
        exact plusSegments_append _ _ hnoplus
      rw [hseg]
      cases t with
      | nil =>
        rw [dif_neg (by simp only [List.length_nil] at hlen2; omega)]
        rw [show plusSegments [] = [[]] from rfl]
        by_cases hsegnil : seg = []
        · simp [hsegnil]
        · simp [hsegnil]
      | cons c2 t2 =>
        rw [dif_pos (by simp only [List.length_cons] at hlen2; omega), hdrop,
          ih (c2 :: t2)
            (by simp only [List.length_cons] at hlen2 ⊢; omega) _,
          List.filter_cons]
        by_cases hsegnil : seg = []
        · simp [hsegnil]
        · rw [if_pos (decide_eq_true hsegnil), List.foldl_cons, if_neg hsegnil]

theorem mem_setInsert (acc : List String) (s x : String) :
    x ∈ setInsert acc s ↔ x ∈ acc ∨ x = s := by
  unfold setInsert
  split
  · rename_i hmem
    constructor
    · exact Or.inl
    · rintro (h | h)
      · exact h
      · exact h ▸ hmem
  · simp

theorem mem_foldl_setInsert (l : List (List Char)) :
    ∀ (acc : List String) (x : String),
      x ∈ l.foldl (fun a s => setInsert a (String.mk s)) acc ↔
        x ∈ acc ∨ x.data ∈ l := by
  induction l with
  | nil => simp
  | cons s t ih =>
    intro acc x
    rw [List.foldl_cons, ih, mem_setInsert]
    constructor
    · rintro ((h | h) | h)
      · exact Or.inl h
      · right; rw [h]; exact List.mem_cons_self _ _
      · right; exact List.mem_cons_of_mem _ h
    · rintro (h | h)
      · exact Or.inl (Or.inl h)
      · rcases List.mem_cons.mp h with h | h
        · left; right; cases x; exact congrArg String.mk h
        · right; exact h

theorem forbiddenLoop_mem (v : String) (acc : List String) (x : String) :
    x ∈ forbiddenLoop acc v.toList ↔
      x ∈ acc ∨ (x.data ≠ [] ∧ x.data ∈ plusSegments v.toList) := by
  rw [forbiddenLoop_spec v.toList.length v.toList le_rfl acc,
    mem_foldl_setInsert, List.mem_filter]
  constructor
  · rintro (h | ⟨h1, h2⟩)
    · exact Or.inl h
    · exact Or.inr ⟨by simpa using h2, h1⟩
  · rintro (h | ⟨h1, h2⟩)
    · exact Or.inl h
    · exact Or.inr ⟨h2, by simpa using h1⟩

/-! ### The claims -/

/-- C9: the key `proto_static_reflection_h` (with any value) is accepted
by the option loop as a no-op — no failure, no configuration change — so
not every key outside the spec's recognized-key table produces the
unknown-key failure. -/
theorem claim9_static_reflection_noop :
    ∀ (f v : String) (o : Options),
      applyOption f o "proto_static_reflection_h" v = .ok o := by
  intro f v o
  rfl

/-- C8: `forbidden_field_listener_events` splits its value on `'+'`,
ignores every empty segment, inserts every non-empty segment into the
exclusion set, and accumulates over the prior contents of the set (so
repeated occurrences of the key union rather than overwrite). -/
theorem claim8_forbidden_accumulate (f v : String) (o : Options) :
    applyOption f o "forbidden_field_listener_events" v =
      .ok { o with field_listener_options :=
        { o.field_listener_options with forbidden_field_listener_events :=
            (forbiddenLoop
              o.field_listener_options.forbidden_field_listener_events
              v.toList) } } ∧
    ∀ x : String,
      x ∈ forbiddenLoop
            o.field_listener_options.forbidden_field_listener_events
            v.toList ↔
        x ∈ o.field_listener_options.forbidden_field_listener_events ∨
          (x.data ≠ [] ∧ x.data ∈ plusSegments v.toList) := by
  constructor
  · rfl
  · intro x
    exact forbiddenLoop_mem v _ x

/-- C2: in split mode with no explicit split-file count, the source phase
produces exactly one global `.pb.cc` artifact followed by one numbered
artifact per message (indices 0..M-1, declaration order) and one per
extension (indices M..M+E-1, declaration order), the counter starting at 0
and never reset or reused. -/
theorem claim2_split_natural_plan (o : Options) (b : String) (M E : Nat)
    (h : o.num_cc_files = 0) :
    sourceEvents o b true M E =
      { events := [Event.openFile (b ++ ".pb.cc"), Event.emit .globalSource] ++
          ((List.range M).flatMap fun i =>
            [Event.openFile (numberedCcFileName b i),
             Event.emit (.sourceForMessage i)]) ++
          ((List.range E).flatMap fun i =>
            [Event.openFile (numberedCcFileName b (M + i)),
             Event.emit (.sourceForExtension i)]),
        aborted := false } := by
  unfold sourceEvents
  rw [if_pos rfl, h, if_neg (by omega), msgFileEvents_eq, extFileEvents_eq]
  simp only [Nat.zero_add]

/-- C3: in split mode with an explicit requested count N strictly greater
than natural = M + E, the source phase produces the global artifact, the
M + E real numbered artifacts, and then exactly N - natural placeholder
artifacts (opened with no emitter call), continuing the same counter. -/
theorem claim3_split_placeholders (o : Options) (b : String) (M E : Nat)
    (h : (M : Int) + (E : Int) < o.num_cc_files) :
    sourceEvents o b true M E =
      { events := [Event.openFile (b ++ ".pb.cc"), Event.emit .globalSource] ++
          ((List.range M).flatMap fun i =>
            [Event.openFile (numberedCcFileName b i),
             Event.emit (.sourceForMessage i)]) ++
          ((List.range E).flatMap fun i =>
            [Event.openFile (numberedCcFileName b (M + i)),
             Event.emit (.sourceForExtension i)]) ++
          ((List.range (o.num_cc_files - ((M : Int) + (E : Int))).toNat).map
            fun j => Event.openFile (numberedCcFileName b (M + E + j))),
        aborted := false } := by
  unfold sourceEvents
  rw [if_pos rfl, if_pos (by omega), if_pos (le_of_lt h),
    msgFileEvents_eq, extFileEvents_eq, placeholderEvents_eq]
  simp only [Nat.zero_add]

/-- C4: in split mode with an explicit requested count strictly between 0
and natural = M + E, the `ABSL_CHECK_LE` contract check fires: the run
aborts (a fatal outcome, not a soft `failure` return), and whenever the
requested count is at least natural the abort branch is unreachable. -/
theorem claim4_split_count_too_small (o : Options) (b : String) (M E : Nat)
    (hsb : (o.safe_boundary_check && o.opensource_runtime) = false) :
    (0 < o.num_cc_files → o.num_cc_files < (M : Int) + (E : Int) →
      (sourceEvents o b true M E).aborted = true ∧
      generateResolved o b true M E =
        .fatal (headerEvents o b ++
          [Event.openFile (b ++ ".pb.cc"), Event.emit .globalSource]) ∧
      ∀ msg evs, generateResolved o b true M E ≠ .failure msg evs) ∧
    ((M : Int) + (E : Int) ≤ o.num_cc_files →
      (sourceEvents o b true M E).aborted = false) := by
  constructor
  · intro h1 h2
    have habort : sourceEvents o b true M E =
        { events := [Event.openFile (b ++ ".pb.cc"), Event.emit .globalSource],
          aborted := true } := by
      unfold sourceEvents
      rw [if_pos rfl, if_pos h1, if_neg (by omega)]
    have hgen : generateResolved o b true M E =
        .fatal (headerEvents o b ++
          [Event.openFile (b ++ ".pb.cc"), Event.emit .globalSource]) := by
      unfold generateResolved
      rw [hsb]
      simp only [Bool.false_eq_true, if_false]
      rw [habort]
      rfl
    refine ⟨by rw [habort], hgen, ?_⟩
    intro msg evs hne
    rw [hgen] at hne
    cases hne
  · intro h1
    unfold sourceEvents
    rw [if_pos rfl]
    by_cases h2 : o.num_cc_files > 0
    · rw [if_pos h2, if_pos h1]
    · rw [if_neg h2]

/-- C10: an explicit split-file count that parses to zero or a negative
number is treated exactly as if no explicit count were given: the natural
number of numbered artifacts is produced, no placeholders are added, and
the contract-violation abort cannot fire; `lite_implicit_weak_fields=-3`
resolves the count to -3 and a non-numeric value resolves it to 0. -/
theorem claim10_nonpositive_count (o : Options) (b : String) (M E : Nat)
    (h : o.num_cc_files ≤ 0) :
    sourceEvents o b true M E =
      sourceEvents { o with num_cc_files := 0 } b true M E ∧
    (sourceEvents o b true M E).aborted = false ∧
    sourceEvents o b true M E =
      { events := [Event.openFile (b ++ ".pb.cc"), Event.emit .globalSource] ++
          msgFileEvents b 0 0 M ++ extFileEvents b M 0 E,
        aborted := false } ∧
    applyOption "f.proto" {} "lite_implicit_weak_fields" "-3" =
      .ok { enforce_mode := .kLiteRuntime, lite_implicit_weak_fields := true,
            num_cc_files := -3 } ∧
    applyOption "f.proto" {} "lite_implicit_weak_fields" "x" =
      .ok { enforce_mode := .kLiteRuntime, lite_implicit_weak_fields := true,
            num_cc_files := 0 } := by
  have hplan : sourceEvents o b true M E =
      { events := [Event.openFile (b ++ ".pb.cc"), Event.emit .globalSource] ++
          msgFileEvents b 0 0 M ++ extFileEvents b M 0 E,
        aborted := false } := by
    unfold sourceEvents
    rw [if_pos rfl, if_neg (by omega)]
  have hplan0 : sourceEvents { o with num_cc_files := 0 } b true M E =
      { events := [Event.openFile (b ++ ".pb.cc"), Event.emit .globalSource] ++
          msgFileEvents b 0 0 M ++ extFileEvents b M 0 E,
        aborted := false } := by
    unfold sourceEvents
    rw [if_pos rfl, if_neg (by simp)]
  exact ⟨by rw [hplan, hplan0], by rw [hplan], hplan, by rfl, by rfl⟩

/-- C5 counterexample: the option string
`speed,code_size,lite_implicit_weak_fields` contains several of the keys
`speed`, `code_size`, `lite`, the last of which is `code_size`, yet the
resolved enforce mode is lite-runtime (set by the later
`lite_implicit_weak_fields` token), not code-size. -/
theorem claim5_counterexample :
    parseGeneratorParameter "speed,code_size,lite_implicit_weak_fields" =
      [("speed", ""), ("code_size", ""), ("lite_implicit_weak_fields", "")] ∧
    (resolveOptions "f.proto" {}
        (parseGeneratorParameter
          "speed,code_size,lite_implicit_weak_fields")).map
      Options.enforce_mode = .ok EnforceOptimizeMode.kLiteRuntime ∧
    EnforceOptimizeMode.kLiteRuntime ≠ EnforceOptimizeMode.kCodeSize := by
  refine ⟨by rfl, by rfl, ?_⟩
  intro h
  cases h

/-- C5 (amended): if a token whose key sets the optimize mode (`speed`,
`code_size`, `lite`, or `lite_implicit_weak_fields`, which forces lite) is
followed only by tokens that set no optimize mode, and resolution
succeeds, the resolved enforce mode is the one set by that last
mode-setting token; in particular `speed,code_size` resolves to
code-size. -/
theorem claim5_last_mode_wins (f : String) (o : Options)
    (l₁ l₂ : List (String × String)) (k v : String)
    (m : EnforceOptimizeMode) (cfg : Options)
    (hres : resolveOptions f o (l₁ ++ (k, v) :: l₂) = .ok cfg)
    (hm : modeOf k = some m)
    (hl₂ : ∀ p ∈ l₂, modeOf p.1 = none) :
    cfg.enforce_mode = m := by
  rw [resolveOptions_append] at hres
  cases h1 : resolveOptions f o l₁ with
  | error e => rw [h1] at hres; cases hres
  | ok o₁ =>
    rw [h1] at hres
    simp only [resolveOptions] at hres
    cases h2 : applyOption f o₁ k v with
    | error e => rw [h2] at hres; cases hres
    | ok o₂ =>
      rw [h2] at hres
      have hset := (applyOption_fields f o₁ k v o₂ h2).2
      rw [hm] at hset
      rw [resolveOptions_mode_none f o₂ l₂ cfg hres hl₂, hset]

/-- C6: when the resolved options set `safe_boundary_check` and the
runtime is open-source, `Generate` fails with exactly the incompatibility
message and opens no artifact; moreover this check is the only failure
branch after the option loop (every post-loop soft failure is this one,
with no events). -/
theorem claim6_safe_boundary_oss (f b : String) (split : Bool) (M E : Nat)
    (tokens : List (String × String)) (o : Options)
    (hres : resolveOptions f { opensource_runtime := true } tokens = .ok o)
    (hsb : o.safe_boundary_check = true) :
    generate true f b split M E tokens =
      .failure
        "The safe_boundary_check option is not supported outside of Google."
        [] ∧
    ∀ (o' : Options) (b' : String) (split' : Bool) (M' E' : Nat)
        (msg : String) (evs : List Event),
      generateResolved o' b' split' M' E' = .failure msg evs →
        o'.safe_boundary_check = true ∧ o'.opensource_runtime = true ∧
        msg =
          "The safe_boundary_check option is not supported outside of Google." ∧
        evs = [] := by
  constructor
  · have hoss : o.opensource_runtime = true :=
      resolveOptions_opensource f _ tokens o hres
    unfold generate
    rw [hres]
    show generateResolved o b split M E = _
    unfold generateResolved
    rw [hsb, hoss]
    simp
  · exact fun o' b' split' M' E' msg evs h =>
      generateResolved_failure o' b' split' M' E' msg evs h

/-- C1 counterexample: the option string
`experimental_tail_call_table_mode=bogus,zzz` has the unrecognized key
`zzz` in its token list, yet `Generate` fails with the bad-enum-value
message for the earlier token, not with `Unknown generator option: zzz`. -/
theorem claim1_counterexample :
    parseGeneratorParameter "experimental_tail_call_table_mode=bogus,zzz" =
      [("experimental_tail_call_table_mode", "bogus"), ("zzz", "")] ∧
    recognizedKey "zzz" = false ∧
    generate true "f.proto" "f" false 0 0
        (parseGeneratorParameter
          "experimental_tail_call_table_mode=bogus,zzz") =
      .failure "Unknown value for experimental_tail_call_table_mode: bogus"
        [] ∧
    ("Unknown value for experimental_tail_call_table_mode: bogus" : String) ≠
      "Unknown generator option: zzz" := by
  refine ⟨by rfl, by rfl, by rfl, ?_⟩
  intro h
  have := congrArg String.data h
  rw [show ("Unknown value for experimental_tail_call_table_mode: bogus" :
      String).data = 'U' :: 'n' :: 'k' :: 'n' :: 'o' :: 'w' :: 'n' :: ' ' ::
      'v' :: "alue for experimental_tail_call_table_mode: bogus".data
      from rfl,
    show ("Unknown generator option: zzz" : String).data =
      'U' :: 'n' :: 'k' :: 'n' :: 'o' :: 'w' :: 'n' :: ' ' :: 'g' ::
      "enerator option: zzz".data from rfl] at this
  injection this with e1 this; injection this with e2 this
  injection this with e3 this; injection this with e4 this
  injection this with e5 this; injection this with e6 this
  injection this with e7 this; injection this with e8 this
  injection this with e9 this
  exact absurd e9 (by decide)

/-- C1 (amended): if every token before the first unrecognized key
resolves without error, `Generate` fails with exactly
`Unknown generator option: <key>` for that first unrecognized key, no
token after it is processed (the result does not depend on the remaining
tokens), and no output artifact is opened; all keys before it are
recognized. -/
theorem claim1_unknown_key_fail_fast (os : Bool) (f b : String)
    (split : Bool) (M E : Nat) (l₁ l₂ : List (String × String))
    (k v : String) (o : Options)
    (hpre : resolveOptions f { opensource_runtime := os } l₁ = .ok o)
    (hk : recognizedKey k = false) :
    generate os f b split M E (l₁ ++ (k, v) :: l₂) =
      .failure ("Unknown generator option: " ++ k) [] ∧
    ∀ p ∈ l₁, recognizedKey p.1 = true := by
  constructor
  · have hres : resolveOptions f { opensource_runtime := os }
        (l₁ ++ (k, v) :: l₂) =
        .error ("Unknown generator option: " ++ k) := by
      rw [resolveOptions_append, hpre]
      show resolveOptions f o ((k, v) :: l₂) = _
      simp only [resolveOptions]
      rw [applyOption_unknown f o k v hk]
    unfold generate
    rw [hres]
  · exact resolveOptions_recognized f _ l₁ o hpre

theorem openFile_mem_source (o : Options) (b nm : String) (split : Bool)
    (M E : Nat)
    (h : Event.openFile nm ∈ (sourceEvents o b split M E).events) :
    nm = b ++ ".pb.cc" ∨ ∃ i, nm = numberedCcFileName b i := by
  unfold sourceEvents at h
  split at h
  · split at h
    · split at h
      · rw [msgFileEvents_eq, extFileEvents_eq, placeholderEvents_eq] at h
        simp only [List.append_assoc, List.mem_append, List.mem_cons,
          List.mem_flatMap, List.mem_map, List.mem_range,
          List.mem_singleton, List.not_mem_nil] at h
        rcases h with (h | h) | h | h | h
        · cases h; exact Or.inl rfl
        · rcases h with h | h
          · cases h
          · cases h
        · rcases h with ⟨j, _, h | h⟩
          · cases h; exact Or.inr ⟨0 + j, rfl⟩
          · rcases h with h | h
            · cases h
            · cases h
        · rcases h with ⟨j, _, h | h⟩
          · cases h; exact Or.inr ⟨M + j, rfl⟩
          · rcases h with h | h
            · cases h
            · cases h
        · rcases h with ⟨j, _, h⟩
          cases h
          exact Or.inr ⟨M + E + j, rfl⟩
      · simp only [List.mem_cons, List.not_mem_nil] at h
        rcases h with h | h | h
        · cases h; exact Or.inl rfl
        · cases h
        · cases h
    · rw [msgFileEvents_eq, extFileEvents_eq] at h
      simp only [List.append_assoc, List.mem_append, List.mem_cons,
        List.mem_flatMap, List.mem_range, List.not_mem_nil] at h
      rcases h with (h | h) | h | h
      · cases h; exact Or.inl rfl
      · rcases h with h | h
        · cases h
        · cases h
      · rcases h with ⟨j, _, h | h⟩
        · cases h; exact Or.inr ⟨0 + j, rfl⟩
        · rcases h with h | h
          · cases h
          · cases h
      · rcases h with ⟨j, _, h | h⟩
        · cases h; exact Or.inr ⟨M + j, rfl⟩
        · rcases h with h | h
          · cases h
          · cases h
  · simp only [List.mem_cons, List.not_mem_nil] at h
    rcases h with h | h | h
    · cases h; exact Or.inl rfl
    · cases h
    · cases h

/-- C7: with `annotate_headers` set, the primary header `<b>.pb.h` is
emitted with info path `<b>.pb.h.meta`, and that metadata artifact is
opened and written only after the header emission returns (the events
appear consecutively, in that order); with `annotate_headers` unset, no
metadata is serialized and neither `.meta` artifact is opened. -/
theorem claim7_annotate_headers_meta (o : Options) (b : String)
    (split : Bool) (M E : Nat)
    (hsb : (o.safe_boundary_check && o.opensource_runtime) = false) :
    (o.annotate_headers = true →
      ∃ l₁ l₂, (generateResolved o b split M E).eventsOf =
        l₁ ++ [Event.openFile (b ++ ".pb.h"),
               Event.emit (.pbHeader (b ++ ".pb.h.meta")),
               Event.openFile (b ++ ".pb.h.meta"),
               Event.serializeMeta (b ++ ".pb.h.meta")] ++ l₂) ∧
    (o.annotate_headers = false →
      (∀ nm, Event.serializeMeta nm ∉
          (generateResolved o b split M E).eventsOf) ∧
      Event.openFile (b ++ ".pb.h.meta") ∉
        (generateResolved o b split M E).eventsOf ∧
      Event.openFile (b ++ ".proto.h.meta") ∉
        (generateResolved o b split M E).eventsOf) := by
  rw [generateResolved_events o b split M E hsb]
  constructor
  · intro hann
    by_cases hph : o.proto_h = true
    · refine ⟨[Event.openFile (b ++ ".proto.h"),
        Event.emit (.protoHeader (b ++ ".proto.h.meta")),
        Event.openFile (b ++ ".proto.h.meta"),
        Event.serializeMeta (b ++ ".proto.h.meta")],
        (sourceEvents o b split M E).events, ?_⟩
      simp [headerEvents, hann, hph]
    · have hph2 : o.proto_h = false := by
        revert hph; cases o.proto_h <;> simp
      refine ⟨[], (sourceEvents o b split M E).events, ?_⟩
      simp [headerEvents, hann, hph2]
  · intro hann
    have hdr : headerEvents o b =
        (if o.proto_h then
          [Event.openFile (b ++ ".proto.h"), Event.emit (.protoHeader "")]
         else []) ++
        [Event.openFile (b ++ ".pb.h"), Event.emit (.pbHeader "")] := by
      simp [headerEvents, hann]
    rw [hdr]
    refine ⟨?_, ?_, ?_⟩
    · intro nm hmem
      rcases List.mem_append.mp hmem with hm | hm
      · revert hm
        by_cases hph : o.proto_h = true <;> simp [hph]
      · exact serializeMeta_not_mem_source o b nm split M E hm
    · intro hmem
      rcases List.mem_append.mp hmem with hm | hm
      · by_cases hph : o.proto_h = true
        · simp [hph] at hm
          rcases hm with hm | hm
          · exact strAppend_left_cancel (by decide) hm
          · exact strAppend_left_cancel (by decide) hm
        · simp [hph] at hm
          exact strAppend_left_cancel (by decide) hm
      · rcases openFile_mem_source o b _ split M E hm with hpb | ⟨i, hi⟩
        · exact strAppend_left_cancel (by decide) hpb
        · exact numbered_ne b _ i pbhMeta_head hi
    · intro hmem
      rcases List.mem_append.mp hmem with hm | hm
      · by_cases hph : o.proto_h = true
        · simp [hph] at hm
          rcases hm with hm | hm
          · exact strAppend_left_cancel (by decide) hm
          · exact strAppend_left_cancel (by decide) hm
        · simp [hph] at hm
          exact strAppend_left_cancel (by decide) hm
      · rcases openFile_mem_source o b _ split M E hm with hpb | ⟨i, hi⟩
        · exact strAppend_left_cancel (by decide) hpb
        · exact numbered_ne b _ i protohMeta_head hi

theorem claim1_witness :
    recognizedKey "zzz" = false ∧
    generate true "f.proto" "f" false 0 0
        ([("speed", "")] ++ ("zzz", "") :: [("proto_h", "")]) =
      .failure ("Unknown generator option: " ++ "zzz") [] :=
  ⟨by rfl, (claim1_unknown_key_fail_fast true "f.proto" "f" false 0 0
    [("speed", "")] [("proto_h", "")] "zzz" ""
    { enforce_mode := .kSpeed } (by rfl) (by rfl)).1⟩

theorem claim2_witness :
    ({} : Options).num_cc_files = 0 ∧
    sourceEvents {} "f" true 2 1 =
      { events := [Event.openFile ("f" ++ ".pb.cc"), Event.emit .globalSource] ++
          ((List.range 2).flatMap fun i =>
            [Event.openFile (numberedCcFileName "f" i),
             Event.emit (.sourceForMessage i)]) ++
          ((List.range 1).flatMap fun i =>
            [Event.openFile (numberedCcFileName "f" (2 + i)),
             Event.emit (.sourceForExtension i)]),
        aborted := false } :=
  ⟨rfl, claim2_split_natural_plan {} "f" 2 1 rfl⟩

theorem claim3_witness :
    (3 : Int) + (1 : Int) < ({ num_cc_files := 6 } : Options).num_cc_files ∧
    sourceEvents { num_cc_files := 6 } "f" true 3 1 =
      { events := [Event.openFile ("f" ++ ".pb.cc"), Event.emit .globalSource] ++
          ((List.range 3).flatMap fun i =>
            [Event.openFile (numberedCcFileName "f" i),
             Event.emit (.sourceForMessage i)]) ++
          ((List.range 1).flatMap fun i =>
            [Event.openFile (numberedCcFileName "f" (3 + i)),
             Event.emit (.sourceForExtension i)]) ++
          ((List.range (({ num_cc_files := 6 } : Options).num_cc_files -
              ((3 : Int) + (1 : Int))).toNat).map
            fun j => Event.openFile (numberedCcFileName "f" (3 + 1 + j))),
        aborted := false } :=
  ⟨by decide, claim3_split_placeholders { num_cc_files := 6 } "f" 3 1
    (by decide)⟩

theorem claim4_witness :
    (({ num_cc_files := 1 } : Options).safe_boundary_check &&
      ({ num_cc_files := 1 } : Options).opensource_runtime) = false ∧
    0 < ({ num_cc_files := 1 } : Options).num_cc_files ∧
    ({ num_cc_files := 1 } : Options).num_cc_files < (2 : Int) + (0 : Int) ∧
    (sourceEvents { num_cc_files := 1 } "f" true 2 0).aborted = true :=
  ⟨by decide, by decide, by decide,
    ((claim4_split_count_too_small { num_cc_files := 1 } "f" 2 0
      (by decide)).1 (by decide) (by decide)).1⟩

theorem claim5_witness :
    resolveOptions "f.proto" {} ([("speed", "")] ++ ("code_size", "") :: []) =
      .ok { enforce_mode := EnforceOptimizeMode.kCodeSize } ∧
    modeOf "code_size" = some EnforceOptimizeMode.kCodeSize ∧
    ({ enforce_mode := EnforceOptimizeMode.kCodeSize } : Options).enforce_mode =
      EnforceOptimizeMode.kCodeSize :=
  ⟨by rfl, by rfl, claim5_last_mode_wins "f.proto" {} [("speed", "")] []
    "code_size" "" EnforceOptimizeMode.kCodeSize
    { enforce_mode := EnforceOptimizeMode.kCodeSize } (by rfl) (by rfl)
    (by intro p hp; cases hp)⟩

theorem claim6_witness :
    resolveOptions "f.proto" { opensource_runtime := true }
        [("safe_boundary_check", "")] =
      .ok { safe_boundary_check := true } ∧
    generate true "f.proto" "f" false 0 0 [("safe_boundary_check", "")] =
      .failure
        "The safe_boundary_check option is not supported outside of Google."
        [] :=
  ⟨by rfl, (claim6_safe_boundary_oss "f.proto" "f" false 0 0
    [("safe_boundary_check", "")] { safe_boundary_check := true }
    (by rfl) rfl).1⟩

theorem claim7_witness :
    (({ annotate_headers := true } : Options).safe_boundary_check &&
      ({ annotate_headers := true } : Options).opensource_runtime) = false ∧
    ∃ l₁ l₂,
      (generateResolved { annotate_headers := true } "f" false 0 0).eventsOf =
        l₁ ++ [Event.openFile ("f" ++ ".pb.h"),
               Event.emit (.pbHeader ("f" ++ ".pb.h.meta")),
               Event.openFile ("f" ++ ".pb.h.meta"),
               Event.serializeMeta ("f" ++ ".pb.h.meta")] ++ l₂ :=
  ⟨by decide, (claim7_annotate_headers_meta { annotate_headers := true }
    "f" false 0 0 (by decide)).1 rfl⟩

theorem claim10_witness :
    ({ num_cc_files := -3 } : Options).num_cc_files ≤ 0 ∧
    (sourceEvents { num_cc_files := -3 } "f" true 1 1).aborted = false :=
  ⟨by decide, (claim10_nonpositive_count { num_cc_files := -3 } "f" 1 1
    (by decide)).2.1⟩
